import Mathlib

/-!
# wind: per-subdirectory disk usage

A shallow embedding of `main.go` (functions `dirSize`, `listDirectories`,
`printDirectorySize`, `main`) together with the part of the Go standard
library the program is built on (`path/filepath.Walk`, `os.ReadDir`,
`os.Lstat`), followed by theorems about the embedded program.

Conventions of the embedding.

* `int64` values are integers; the one arithmetic operation that can leave
  the `int64` range, the addition `size += info.Size()`, is wrapped with
  `wrap64` (two's complement, modulo `2^64`).  Division of an `int64` by the
  positive constants `1024` and `1048576` cannot overflow and is `Int.tdiv`
  (Go's `/` truncates toward zero).
* Standard output is the list of strings written, one element for every
  `fmt.Printf` / `fmt.Println` call, in the order of the calls.
* A Go `error` value is `Option GoError`, `none` being `nil`.
* The file system is an explicit input: `Node` is the answer of
  `os.Lstat` / directory reads below a path, `Env` is what the calls of
  `os.ReadDir`, `filepath.Join` and `filepath.Walk` observe.
-/

namespace Wind

/-! ## Machine integers -/

/-- Two's complement wrap of an integer into the `int64` range. -/
def wrap64 (x : Int) : Int := (x + 2 ^ 63) % 2 ^ 64 - 2 ^ 63

/-- Source: `const bytesInMB = 1024 * 1024`. -/
def bytesInMB : Int := 1024 * 1024

/-! ## Go errors and file information -/

/-- A non-nil Go `error`: the two sentinel values of `path/filepath`
and any other error, represented by its message. -/
inductive GoError where
  | SkipDir
  | SkipAll
  | os (msg : String)
  deriving DecidableEq, Repr

/-- The text `%v` prints for an error (`err.Error()`). -/
def GoError.Error : GoError → String
  | .SkipDir => "skip this directory"
  | .SkipAll => "skip everything and stop the walk"
  | .os msg => msg

/-- The file types a non-directory entry can have (the type bits of
`os.FileMode` other than `ModeDir`). -/
inductive NonDirType where
  | regular
  | symlink
  | namedPipe
  | socket
  | device
  | charDevice
  | irregular
  deriving DecidableEq, Repr

/-- The type part of `os.FileMode`. -/
inductive FileMode where
  | dir
  | nonDir (t : NonDirType)
  deriving DecidableEq, Repr

/-- Go: `FileMode.IsDir`. -/
def FileMode.IsDir : FileMode → Bool
  | .dir => true
  | .nonDir _ => false

/-- What `os.FileInfo` exposes: base name, length in bytes, mode. -/
structure FileInfo where
  name : String
  size : Int
  mode : FileMode
  deriving DecidableEq, Repr

/-- Go: `info.IsDir()`. -/
def FileInfo.IsDir (info : FileInfo) : Bool := info.mode.IsDir

/-- Go: `info.Size()`. -/
def FileInfo.Size (info : FileInfo) : Int := info.size

/-! ## The file system seen by a walk -/

/-- The file tree below one path, as `os.Lstat` and the directory reads
of `filepath.Walk` report it.

* `missing name err`: `os.Lstat` of the entry fails with `err`;
* `file name typ size`: `os.Lstat` succeeds and the entry is not a
  directory (`IsDir()` is false);
* `dir name size readErr children`: `os.Lstat` succeeds and the entry is a
  directory; reading its names fails with `readErr` when that is `some`,
  and otherwise yields `children`, in the order the walk visits them. -/
inductive Node where
  | missing (name : String) (err : String)
  | file (name : String) (typ : NonDirType) (size : Int)
  | dir (name : String) (size : Int) (readErr : Option String) (children : List Node)
  deriving Repr

/-- Base name of an entry. -/
def Node.name : Node → String
  | .missing name _ => name
  | .file name _ _ => name
  | .dir name _ _ _ => name

/-- Go: `filepath.WalkFunc`, `func(path string, info os.FileInfo, err error) error`,
acting on an explicit state `σ` (the variables the closure captures and
standard output). -/
abbrev WalkFunc (σ : Type) := σ → String → Option FileInfo → Option GoError → σ × Option GoError

mutual
/-- Go: `filepath.walk(path, info, walkFn)`, extended to an entry whose
`os.Lstat` failed, for which both callers (`Walk` for the root, the loop
of `walk` for a child) make the same call `walkFn(path, nil, err)`.

A non-directory is handed to `walkFn`.  For a directory the names are read,
`walkFn` is called with the read error, and the walk descends only when
neither the read nor `walkFn` returned an error. -/
def walk {σ : Type} (walkFn : WalkFunc σ) (join : String → String → String)
    (path : String) : Node → σ → σ × Option GoError
  | .missing _ err, s => walkFn s path none (some (.os err))
  | .file name typ size, s => walkFn s path (some ⟨name, size, .nonDir typ⟩) none
  | .dir name size readErr children, s =>
      let r := walkFn s path (some ⟨name, size, .dir⟩) (readErr.map GoError.os)
      if readErr.isSome || r.2.isSome then r
      else walkNames walkFn join path children r.1
/-- Go: the loop `for _, name := range names` of `filepath.walk`.  An error
from an entry ends the loop, except `SkipDir` from a directory or from an
entry whose `os.Lstat` failed. -/
def walkNames {σ : Type} (walkFn : WalkFunc σ) (join : String → String → String)
    (path : String) : List Node → σ → σ × Option GoError
  | [], s => (s, none)
  | c :: rest, s =>
      let r := walk walkFn join (join path c.name) c s
      match r.2 with
      | none => walkNames walkFn join path rest r.1
      | some e =>
          let stop : Bool :=
            match c with
            | .missing _ _ => decide (e ≠ GoError.SkipDir)
            | .file _ _ _ => true
            | .dir _ _ _ _ => decide (e ≠ GoError.SkipDir)
          if stop then (r.1, some e) else walkNames walkFn join path rest r.1
end

/-- Go: `filepath.Walk(root, fn)`.  `tree` is what the file system holds at
`root`.  `SkipDir` and `SkipAll` reaching the top are turned into `nil`. -/
def Walk {σ : Type} (fn : WalkFunc σ) (join : String → String → String)
    (root : String) (tree : Node) (s : σ) : σ × Option GoError :=
  let r := walk fn join root tree s
  if r.2 = some GoError.SkipDir ∨ r.2 = some GoError.SkipAll then (r.1, none) else r

/-! ## The program -/

/-- Go: `os.DirEntry`, as far as `main` uses it. -/
structure DirEntry where
  Name : String
  IsDir : Bool
  deriving DecidableEq, Repr

/-- The environment of one run: `join` is `filepath.Join`, `ReadDir p` is
the pair `os.ReadDir(p)` returns (the entries read and the error), and
`tree p` is the file tree `filepath.Walk` finds at `p`. -/
structure Env where
  join : String → String → String
  ReadDir : String → List DirEntry × Option String
  tree : String → Node

/-- The state of the closure in `dirSize`: the captured variable `size`
and the lines written to standard output. -/
structure SizeState where
  size : Int
  out : List String
  deriving DecidableEq, Repr

/-- Source: the function literal passed to `filepath.Walk` in `dirSize`
(main.go lines 14 to 23).  With a non-nil `err` it prints the diagnostic and
returns nil; otherwise it adds `info.Size()` to `size` when the entry is not
a directory, and returns nil.  (`Walk` never passes a nil `info` together
with a nil `err`; that case leaves the state unchanged here.) -/
def dirSizeFn : WalkFunc SizeState := fun s _ info err =>
  match err with
  | some e => ({ s with out := s.out ++ ["Error accessing file: " ++ e.Error ++ "\n"] }, none)
  | none =>
      match info with
      | some i =>
          if !i.IsDir then ({ s with size := wrap64 (s.size + i.Size) }, none)
          else (s, none)
      | none => (s, none)

/-- The results of `dirSize`: the two returned values and what was printed. -/
structure DirSizeResult where
  size : Int
  err : Option GoError
  out : List String
  deriving DecidableEq, Repr

/-- Source: `dirSize(path)` (main.go lines 12 to 25). -/
def dirSize (env : Env) (path : String) : DirSizeResult :=
  let r := Walk dirSizeFn env.join path (env.tree path) ⟨0, []⟩
  ⟨r.1.size, r.2, r.1.out⟩

/-- Source: `listDirectories(dir)` (main.go lines 27 to 29). -/
def listDirectories (env : Env) (dir : String) : List DirEntry × Option String :=
  env.ReadDir dir

/-- Source: `printDirectorySize(dir, size, unit)` (main.go lines 31 to 45);
the value is the list of strings written to standard output. -/
def printDirectorySize (dir : String) (size : Int) (unit : String) : List String :=
  if unit = "B" then
    [toString size ++ "\t" ++ dir ++ "\n"]
  else if unit = "KB" then
    [toString (Int.tdiv size 1024) ++ "\t" ++ dir ++ "\n"]
  else if unit = "MB" then
    [toString (Int.tdiv size bytesInMB) ++ "\t" ++ dir ++ "\n"]
  else
    ["Invalid unit; using MB as default\n",
     toString (Int.tdiv size bytesInMB) ++ "\t" ++ dir ++ "\n"]

/-- Source: the loop `for _, entry := range entries` of `main`
(main.go lines 58 to 68); the value is what the loop writes. -/
def mainLoop (env : Env) (dir unit : String) : List DirEntry → List String
  | [] => []
  | entry :: rest =>
      if entry.IsDir then
        let subDirPath := env.join dir entry.Name
        let r := dirSize env subDirPath
        match r.err with
        | some e =>
            r.out ++ ["Error calculating size for " ++ subDirPath ++ ": " ++ e.Error ++ "\n"]
              ++ mainLoop env dir unit rest
        | none =>
            r.out ++ printDirectorySize entry.Name r.size unit ++ mainLoop env dir unit rest
      else mainLoop env dir unit rest

/-- Source: `main` (main.go lines 47 to 69), after the two flags have been
read: `dir` and `unit` are the values of `--dir` and `--unit`.  The value is
standard output and the exit status. -/
def main (env : Env) (dir unit : String) : List String × Nat :=
  let r := listDirectories env dir
  match r.2 with
  | some e => (["Error reading directory: " ++ e ++ "\n"], 1)
  | none => (mainLoop env dir unit r.1, 0)

/-! ## Specification-side notions -/

/-- One call of the walk function: the three arguments it receives. -/
structure Delivery where
  path : String
  info : Option FileInfo
  err : Option GoError
  deriving DecidableEq, Repr

mutual
/-- The calls a walk makes below `path` while the walk function keeps
returning nil, in the order they are made: every entry once, and nothing
below a directory whose names could not be read. -/
def deliveries (join : String → String → String) (path : String) : Node → List Delivery
  | .missing _ err => [⟨path, none, some (.os err)⟩]
  | .file name typ size => [⟨path, some ⟨name, size, .nonDir typ⟩, none⟩]
  | .dir name size readErr children =>
      ⟨path, some ⟨name, size, .dir⟩, readErr.map GoError.os⟩ ::
        (if readErr.isSome then [] else deliveriesOfNames join path children)
/-- The calls made for the entries of a directory `path`, in order. -/
def deliveriesOfNames (join : String → String → String) (path : String) :
    List Node → List Delivery
  | [] => []
  | c :: rest => deliveries join (join path c.name) c ++ deliveriesOfNames join path rest
end

/-- The state after a walk function has received the given calls in order. -/
def runDeliveries {σ : Type} (fn : WalkFunc σ) (s : σ) (ds : List Delivery) : σ :=
  ds.foldl (fun st d => (fn st d.path d.info d.err).1) s

/-- The byte length a delivered entry adds to the total: its size when it
arrives without an error and is not a directory, nothing otherwise. -/
def Delivery.counted (d : Delivery) : Option Int :=
  match d.err, d.info with
  | none, some i => if i.IsDir then none else some i.Size
  | _, _ => none

/-- The diagnostic line printed for a delivered entry, if any. -/
def Delivery.diagnostic (d : Delivery) : Option String :=
  d.err.map (fun e => "Error accessing file: " ++ e.Error ++ "\n")

/-- Addition of `int64` values, as `size += x` performs it. -/
def addInt64 (acc x : Int) : Int := wrap64 (acc + x)

/-- The sizes counted among a list of calls. -/
def countedSizes (ds : List Delivery) : List Int := ds.filterMap Delivery.counted

/-- The diagnostics printed for a list of calls. -/
def diagnostics (ds : List Delivery) : List String := ds.filterMap Delivery.diagnostic

mutual
/-- Byte lengths of all non-directory entries of the tree, at any depth. -/
def Node.nonDirSizes : Node → List Int
  | .missing _ _ => []
  | .file _ _ size => [size]
  | .dir _ _ _ children => nonDirSizesOfNames children
/-- Byte lengths of all non-directory entries below a list of entries. -/
def nonDirSizesOfNames : List Node → List Int
  | [] => []
  | c :: rest => c.nonDirSizes ++ nonDirSizesOfNames rest
end

mutual
/-- Byte lengths of the regular files of the tree, at any depth. -/
def Node.regularSizes : Node → List Int
  | .missing _ _ => []
  | .file _ typ size => if typ = .regular then [size] else []
  | .dir _ _ _ children => regularSizesOfNames children
/-- Byte lengths of the regular files below a list of entries. -/
def regularSizesOfNames : List Node → List Int
  | [] => []
  | c :: rest => c.regularSizes ++ regularSizesOfNames rest
end

mutual
/-- Byte lengths of the non-directory entries a walk reaches: entries whose
`os.Lstat` succeeds and all of whose ancestors could be read. -/
def Node.reachedSizes : Node → List Int
  | .missing _ _ => []
  | .file _ _ size => [size]
  | .dir _ _ readErr children =>
      if readErr.isSome then [] else reachedSizesOfNames children
/-- Reached non-directory byte lengths below a list of entries. -/
def reachedSizesOfNames : List Node → List Int
  | [] => []
  | c :: rest => c.reachedSizes ++ reachedSizesOfNames rest
end

mutual
/-- Every entry of the tree is reachable without an access error:
`os.Lstat` succeeds everywhere and every directory can be read. -/
def Node.accessOK : Node → Bool
  | .missing _ _ => false
  | .file _ _ _ => true
  | .dir _ _ readErr children => readErr.isNone && accessOKOfNames children
/-- Every entry below a list of entries is reachable without an access error. -/
def accessOKOfNames : List Node → Bool
  | [] => true
  | c :: rest => c.accessOK && accessOKOfNames rest
end

mutual
/-- Byte lengths of all entries of the tree, directories included. -/
def Node.allSizes : Node → List Int
  | .missing _ _ => []
  | .file _ _ size => [size]
  | .dir _ size _ children => size :: allSizesOfNames children
/-- Byte lengths of all entries below a list of entries. -/
def allSizesOfNames : List Node → List Int
  | [] => []
  | c :: rest => c.allSizes ++ allSizesOfNames rest
end

mutual
/-- The same tree with the byte length of every directory replaced by `z`. -/
def Node.setDirSize (z : Int) : Node → Node
  | .missing name err => .missing name err
  | .file name typ size => .file name typ size
  | .dir name _ readErr children => .dir name z readErr (setDirSizeOfNames z children)
/-- The same entries with the byte length of every directory replaced by `z`. -/
def setDirSizeOfNames (z : Int) : List Node → List Node
  | [] => []
  | c :: rest => c.setDirSize z :: setDirSizeOfNames z rest
end

/-! ## Concrete file systems used below -/

/-- A stand-in for `filepath.Join` on clean relative paths. -/
def joinSlash (a b : String) : String := a ++ "/" ++ b

/-- The directory of `TestDirSize`: three files of 1024, 2048 and 10240 bytes. -/
def testDirTree : Node :=
  .dir "testdir" 4096 none
    [.file "file1.txt" .regular 1024, .file "file2.txt" .regular 2048,
     .file "file3.txt" .regular 10240]

/-- An environment whose every path holds `testDirTree`. -/
def testDirEnv : Env := ⟨joinSlash, fun _ => ([], none), fun _ => testDirTree⟩

/-- A directory with two sparse files of `2^62` bytes each. -/
def sparseTree : Node :=
  .dir "big" 4096 none
    [.file "a.img" .regular 4611686018427387904, .file "b.img" .regular 4611686018427387904]

/-- An environment whose every path holds `sparseTree`. -/
def sparseEnv : Env := ⟨joinSlash, fun _ => ([], none), fun _ => sparseTree⟩

/-- A second directory with two sparse files of `2^62` bytes each, next to
a small file. -/
def sparseTree2 : Node :=
  .dir "vault" 4096 none
    [.file "x.img" .regular 4611686018427387904, .file "note.txt" .regular 5,
     .file "y.img" .regular 4611686018427387904]

/-- An environment whose every path holds `sparseTree2`. -/
def sparseEnv2 : Env := ⟨joinSlash, fun _ => ([], none), fun _ => sparseTree2⟩

/-- A directory in which one entry cannot be examined and one subdirectory
cannot be read, between readable files. -/
def flakyTree : Node :=
  .dir "data" 4096 none
    [.file "a" .regular 100,
     .missing "b" "lstat data/b: input/output error",
     .dir "locked" 4096 (some "open data/locked: permission denied")
       [.file "hidden" .regular 999],
     .dir "sub" 4096 none [.file "c" .regular 20],
     .file "d" .regular 3]

/-- An environment whose every path holds `flakyTree`. -/
def flakyEnv : Env := ⟨joinSlash, fun _ => ([], none), fun _ => flakyTree⟩

/-- An environment in which no path exists. -/
def goneEnv : Env :=
  ⟨joinSlash, fun _ => ([], some "open gone: no such file or directory"),
    fun _ => .missing "gone" "lstat gone: no such file or directory"⟩

/-- A root `root` with a subdirectory `secret` that cannot be read, a plain
file `notes.txt` and a readable subdirectory `ok` holding 2048 bytes. -/
def deniedEnv : Env :=
  ⟨joinSlash,
    fun _ => ([⟨"secret", true⟩, ⟨"notes.txt", false⟩, ⟨"ok", true⟩], none),
    fun p =>
      if p = "root/secret" then
        .dir "secret" 4096 (some "open root/secret: permission denied") []
      else if p = "root/ok" then
        .dir "ok" 4096 none [.file "a.bin" .regular 2048]
      else .missing p "no such file or directory"⟩

/-- A root `root` with subdirectories `sub1` (3072 bytes in two files) and
`sub2` (empty) and a plain file between them. -/
def plainEnv : Env :=
  ⟨joinSlash,
    fun _ => ([⟨"sub1", true⟩, ⟨"file1.txt", false⟩, ⟨"sub2", true⟩], none),
    fun p =>
      if p = "root/sub1" then
        .dir "sub1" 4096 none [.file "x" .regular 1024, .file "y" .regular 2048]
      else if p = "root/sub2" then .dir "sub2" 4096 none []
      else .file "file1.txt" .regular 1024⟩

/-- A root whose listing fails after one directory entry has been read. -/
def brokenRootEnv : Env :=
  ⟨joinSlash,
    fun _ => ([⟨"sub1", true⟩], some "readdirent root: input/output error"),
    fun _ => .dir "sub1" 4096 none [.file "x" .regular 1024]⟩

/-- A directory holding one symbolic link whose target is 11 bytes long, a
named pipe and no regular file. -/
def linkTree : Node :=
  .dir "d" 4096 none [.file "link" .symlink 11, .file "fifo" .namedPipe 0]

/-- An environment whose every path holds `linkTree`. -/
def linkEnv : Env := ⟨joinSlash, fun _ => ([], none), fun _ => linkTree⟩

/-! ## Lemmas: machine arithmetic -/

theorem wrap64_of_range {x : Int} (h1 : -(2 ^ 63) ≤ x) (h2 : x < 2 ^ 63) : wrap64 x = x := by
  unfold wrap64
  rw [Int.emod_eq_of_lt (by omega) (by omega)]
  omega

/-- Every wrapped value is an `int64`. -/
theorem wrap64_range (x : Int) : -(2 ^ 63) ≤ wrap64 x ∧ wrap64 x < 2 ^ 63 := by
  unfold wrap64
  have h1 := Int.emod_nonneg (x + 2 ^ 63) (show (2 ^ 64 : Int) ≠ 0 by norm_num)
  have h2 := Int.emod_lt_of_pos (x + 2 ^ 63) (show (0 : Int) < 2 ^ 64 by norm_num)
  constructor <;> omega

theorem wrap64_add_left (a b : Int) : wrap64 (wrap64 a + b) = wrap64 (a + b) := by
  unfold wrap64
  have : (a + 2 ^ 63) % 2 ^ 64 - 2 ^ 63 + b + 2 ^ 63 = (a + 2 ^ 63) % 2 ^ 64 + b := by ring
  rw [this, show a + b + 2 ^ 63 = (a + 2 ^ 63) + b by ring, Int.emod_add_emod]

theorem wrap64_idem (a : Int) : wrap64 (wrap64 a) = wrap64 a := by
  have := wrap64_add_left a 0
  simpa using this

theorem foldl_addInt64 (xs : List Int) (a : Int) :
    wrap64 (xs.foldl addInt64 a) = wrap64 (a + xs.sum) := by
  induction xs generalizing a with
  | nil => simp
  | cons x xs ih =>
      simp only [List.foldl_cons, List.sum_cons]
      rw [ih, addInt64, wrap64_add_left, add_assoc]

theorem foldl_addInt64_zero (xs : List Int) : xs.foldl addInt64 0 = wrap64 xs.sum := by
  cases xs with
  | nil => decide
  | cons x xs =>
      have h := foldl_addInt64 xs (addInt64 0 x)
      simp only [List.foldl_cons, List.sum_cons]
      have h2 : wrap64 (List.foldl addInt64 (addInt64 0 x) xs) = List.foldl addInt64 (addInt64 0 x) xs := by
        induction xs using List.reverseRecOn with
        | nil => simp [addInt64, wrap64_idem]
        | append_singleton ys y _ => simp [List.foldl_append, addInt64, wrap64_idem]
      rw [← h2, h, addInt64, wrap64_add_left, zero_add]

/-! ## Lemmas: the walk -/

mutual
/-- A walk function that always returns nil receives exactly the calls
`deliveries` lists, and the walk returns nil. -/
theorem walk_of_nil {σ : Type} (fn : WalkFunc σ)
    (hfn : ∀ s p i e, (fn s p i e).2 = none) (join : String → String → String)
    (path : String) : (n : Node) → (s : σ) →
      walk fn join path n s = (runDeliveries fn s (deliveries join path n), none)
  | .missing _ err, s => by
      simp only [walk, deliveries, runDeliveries, List.foldl_cons, List.foldl_nil]
      exact Prod.ext rfl (hfn _ _ _ _)
  | .file name typ size, s => by
      simp only [walk, deliveries, runDeliveries, List.foldl_cons, List.foldl_nil]
      exact Prod.ext rfl (hfn _ _ _ _)
  | .dir name size readErr children, s => by
      have ih := walkNames_of_nil fn hfn join path children
      simp only [walk, deliveries, runDeliveries, List.foldl_cons, hfn, Option.isSome_none,
        Bool.or_false]
      cases readErr with
      | some e =>
          simp only [Option.isSome_some, if_true, List.foldl_nil]
          exact Prod.ext rfl (hfn _ _ _ _)
      | none =>
          simp only [Option.isSome_none, Bool.false_eq_true, if_false]
          rw [ih]
          rfl
/-- The loop over the entries of a directory, for a walk function that
always returns nil. -/
theorem walkNames_of_nil {σ : Type} (fn : WalkFunc σ)
    (hfn : ∀ s p i e, (fn s p i e).2 = none) (join : String → String → String)
    (path : String) : (cs : List Node) → (s : σ) →
      walkNames fn join path cs s = (runDeliveries fn s (deliveriesOfNames join path cs), none)
  | [], s => by
      simp [walkNames, deliveriesOfNames, runDeliveries]
  | c :: rest, s => by
      have h1 := walk_of_nil fn hfn join (join path c.name) c s
      have h2 := walkNames_of_nil fn hfn join path rest
      simp only [walkNames, h1, h2, deliveriesOfNames, runDeliveries, List.foldl_append]
end

theorem dirSizeFn_nil (s : SizeState) (p : String) (i : Option FileInfo) (e : Option GoError) :
    (dirSizeFn s p i e).2 = none := by
  unfold dirSizeFn
  cases e with
  | some e => rfl
  | none =>
      cases i with
      | none => rfl
      | some i => by_cases h : i.IsDir <;> simp [h]

theorem Walk_of_nil {σ : Type} (fn : WalkFunc σ)
    (hfn : ∀ s p i e, (fn s p i e).2 = none) (join : String → String → String)
    (root : String) (n : Node) (s : σ) :
    Walk fn join root n s = (runDeliveries fn s (deliveries join root n), none) := by
  simp [Walk, walk_of_nil fn hfn]

theorem dirSizeFn_step (s : SizeState) (d : Delivery) :
    (dirSizeFn s d.path d.info d.err).1 =
      ⟨(d.counted.toList).foldl addInt64 s.size, s.out ++ d.diagnostic.toList⟩ := by
  obtain ⟨p, i, e⟩ := d
  cases e with
  | some e => simp [dirSizeFn, Delivery.counted, Delivery.diagnostic]
  | none =>
      cases i with
      | none => simp [dirSizeFn, Delivery.counted, Delivery.diagnostic]
      | some i =>
          by_cases h : i.IsDir <;>
            simp [dirSizeFn, Delivery.counted, Delivery.diagnostic, h, addInt64]

theorem runDeliveries_dirSizeFn (ds : List Delivery) (s : SizeState) :
    runDeliveries dirSizeFn s ds =
      ⟨(countedSizes ds).foldl addInt64 s.size, s.out ++ diagnostics ds⟩ := by
  induction ds generalizing s with
  | nil => simp [runDeliveries, countedSizes, diagnostics]
  | cons d ds ih =>
      have hstep := dirSizeFn_step s d
      unfold runDeliveries at ih ⊢
      rw [List.foldl_cons, ih, hstep]
      cases hc : d.counted <;> cases hd : d.diagnostic <;>
        simp [countedSizes, diagnostics, List.filterMap_cons, hc, hd]

/-- What `dirSize` returns, in terms of the calls of the walk. -/
theorem dirSize_eq (env : Env) (path : String) :
    dirSize env path =
      ⟨(countedSizes (deliveries env.join path (env.tree path))).foldl addInt64 0, none,
        diagnostics (deliveries env.join path (env.tree path))⟩ := by
  simp [dirSize, Walk_of_nil dirSizeFn dirSizeFn_nil, runDeliveries_dirSizeFn]

mutual
theorem countedSizes_deliveries (join : String → String → String) (path : String) :
    (n : Node) → countedSizes (deliveries join path n) = n.reachedSizes
  | .missing _ _ => by
      simp [deliveries, countedSizes, Delivery.counted, Node.reachedSizes]
  | .file _ _ _ => by
      simp [deliveries, countedSizes, Delivery.counted, Node.reachedSizes, FileInfo.IsDir,
        FileMode.IsDir, FileInfo.Size]
  | .dir _ _ readErr children => by
      have ih := countedSizes_deliveriesOfNames join path children
      cases readErr with
      | some e =>
          simp [deliveries, countedSizes, Delivery.counted, Node.reachedSizes]
      | none =>
          simp only [countedSizes] at ih
          simp [deliveries, countedSizes, Delivery.counted, Node.reachedSizes, FileInfo.IsDir,
            FileMode.IsDir, ih]
theorem countedSizes_deliveriesOfNames (join : String → String → String) (path : String) :
    (cs : List Node) → countedSizes (deliveriesOfNames join path cs) = reachedSizesOfNames cs
  | [] => by simp [deliveriesOfNames, countedSizes, reachedSizesOfNames]
  | c :: rest => by
      have h1 := countedSizes_deliveries join (join path c.name) c
      have h2 := countedSizes_deliveriesOfNames join path rest
      simp only [countedSizes] at h1 h2
      simp [deliveriesOfNames, countedSizes, reachedSizesOfNames, List.filterMap_append, h1, h2]
end

mutual
theorem reachedSizes_of_accessOK : (n : Node) → n.accessOK = true →
    n.reachedSizes = n.nonDirSizes
  | .missing _ _, h => by simp [Node.accessOK] at h
  | .file _ _ _, _ => by simp [Node.reachedSizes, Node.nonDirSizes]
  | .dir _ _ readErr children, h => by
      simp only [Node.accessOK, Bool.and_eq_true, Option.isNone_iff_eq_none] at h
      have ih := reachedSizesOfNames_of_accessOK children h.2
      simp [Node.reachedSizes, Node.nonDirSizes, h.1, ih]
theorem reachedSizesOfNames_of_accessOK : (cs : List Node) → accessOKOfNames cs = true →
    reachedSizesOfNames cs = nonDirSizesOfNames cs
  | [], _ => by simp [reachedSizesOfNames, nonDirSizesOfNames]
  | c :: rest, h => by
      simp only [accessOKOfNames, Bool.and_eq_true] at h
      have h1 := reachedSizes_of_accessOK c h.1
      have h2 := reachedSizesOfNames_of_accessOK rest h.2
      simp [reachedSizesOfNames, nonDirSizesOfNames, h1, h2]
end

mutual
theorem diagnostics_of_accessOK (join : String → String → String) (path : String) :
    (n : Node) → n.accessOK = true → diagnostics (deliveries join path n) = []
  | .missing _ _, h => by simp [Node.accessOK] at h
  | .file _ _ _, _ => by simp [deliveries, diagnostics, Delivery.diagnostic]
  | .dir _ _ readErr children, h => by
      simp only [Node.accessOK, Bool.and_eq_true, Option.isNone_iff_eq_none] at h
      have ih := diagnosticsOfNames_of_accessOK join path children h.2
      simp only [diagnostics] at ih
      simp [deliveries, diagnostics, Delivery.diagnostic, h.1, ih]
theorem diagnosticsOfNames_of_accessOK (join : String → String → String) (path : String) :
    (cs : List Node) → accessOKOfNames cs = true →
      diagnostics (deliveriesOfNames join path cs) = []
  | [], _ => by simp [deliveriesOfNames, diagnostics]
  | c :: rest, h => by
      simp only [accessOKOfNames, Bool.and_eq_true] at h
      have h1 := diagnostics_of_accessOK join (join path c.name) c h.1
      have h2 := diagnosticsOfNames_of_accessOK join path rest h.2
      simp only [diagnostics] at h1 h2
      simp [deliveriesOfNames, diagnostics, List.filterMap_append, h1, h2]
end

/-! ## The formatter -/

/-- Go's integer division by a positive constant is the quotient of the
absolute value, with the sign of the dividend. -/
theorem tdiv_eq_sign_mul (size : Int) (d : Nat) :
    Int.tdiv size (d : Int) = Int.sign size * ((size.natAbs / d : Nat) : Int) := by
  cases size with
  | ofNat m =>
      cases m with
      | zero => simp
      | succ k =>
          have : Int.sign (Int.ofNat (k + 1)) = 1 := rfl
          rw [this, one_mul]
          rfl
  | negSucc m =>
      have h1 : Int.sign (Int.negSucc m) = -1 := rfl
      have h2 : (Int.negSucc m).natAbs = m + 1 := rfl
      rw [h1, h2]
      cases d with
      | zero => simp
      | succ k =>
          have : Int.tdiv (Int.negSucc m) ((k + 1 : Nat) : Int) = -(((m + 1) / (k + 1) : Nat) : Int) := rfl
          rw [this]
          simp

/-- C1: for every size and directory name, `printDirectorySize` writes the one
line `<value>\t<name>\n`, where the value is the size for unit "B", the size
divided by 1024 for "KB" and by 1048576 for "MB"; the division truncates
toward zero (it is the quotient of the absolute value carrying the sign of the
size, so neither rounding nor flooring); (10485760, "MB"), (10240, "KB") and
(10, "B") all display 10. -/
theorem printDirectorySize_units (dir : String) (size : Int) :
    printDirectorySize dir size "B" = [toString size ++ "\t" ++ dir ++ "\n"] ∧
    printDirectorySize dir size "KB" = [toString (Int.tdiv size 1024) ++ "\t" ++ dir ++ "\n"] ∧
    printDirectorySize dir size "MB" =
      [toString (Int.tdiv size 1048576) ++ "\t" ++ dir ++ "\n"] ∧
    Int.tdiv size 1024 = Int.sign size * ((size.natAbs / 1024 : Nat) : Int) ∧
    Int.tdiv size 1048576 = Int.sign size * ((size.natAbs / 1048576 : Nat) : Int) ∧
    printDirectorySize "testdir" 10485760 "MB" = ["10\ttestdir\n"] ∧
    printDirectorySize "testdir" 10240 "KB" = ["10\ttestdir\n"] ∧
    printDirectorySize "testdir" 10 "B" = ["10\ttestdir\n"] ∧
    printDirectorySize "testdir" 2047 "KB" = ["1\ttestdir\n"] ∧
    printDirectorySize "testdir" (-1) "KB" = ["0\ttestdir\n"] ∧
    printDirectorySize "testdir" (-1048577) "MB" = ["-1\ttestdir\n"] := by
  refine ⟨?_, ?_, ?_, ?_, ?_, ?_, ?_, ?_, ?_, ?_, ?_⟩
  · simp [printDirectorySize]
  · simp [printDirectorySize]
  · simp [printDirectorySize, bytesInMB]
  · exact tdiv_eq_sign_mul size 1024
  · exact tdiv_eq_sign_mul size 1048576
  · decide
  · decide
  · decide
  · decide
  · decide
  · decide

/-- C2: for every size, directory name and unit other than "B", "KB" and "MB",
`printDirectorySize` writes the warning and then exactly what the call with
unit "MB" writes, the line `<size / 1048576>\t<name>\n`. -/
theorem printDirectorySize_invalid_unit (dir : String) (size : Int) (unit : String)
    (hB : unit ≠ "B") (hKB : unit ≠ "KB") (hMB : unit ≠ "MB") :
    printDirectorySize dir size unit =
      "Invalid unit; using MB as default\n" :: printDirectorySize dir size "MB" ∧
    printDirectorySize dir size "MB" =
      [toString (Int.tdiv size 1048576) ++ "\t" ++ dir ++ "\n"] := by
  constructor
  · simp [printDirectorySize, hB, hKB, hMB]
  · simp [printDirectorySize, bytesInMB]

/-- Witness of C2 at the unit "XYZ" and the size 10485760. -/
theorem printDirectorySize_invalid_unit_witness :
    ("XYZ" ≠ "B" ∧ "XYZ" ≠ "KB" ∧ "XYZ" ≠ "MB") ∧
    (printDirectorySize "testdir" 10485760 "XYZ" =
      "Invalid unit; using MB as default\n" :: printDirectorySize "testdir" 10485760 "MB" ∧
     printDirectorySize "testdir" 10485760 "MB" =
      [toString (Int.tdiv 10485760 1048576) ++ "\t" ++ "testdir" ++ "\n"]) :=
  ⟨by decide, printDirectorySize_invalid_unit "testdir" 10485760 "XYZ"
    (by decide) (by decide) (by decide)⟩

/-! ## The entry point -/

/-- The error `dirSize` returns is nil for every path and every file system. -/
theorem dirSize_err_nil (env : Env) (path : String) : (dirSize env path).err = none := by
  rw [dirSize_eq]

/-- C5: the code at a root that does not exist.  `filepath.Walk` hands the
failure of `os.Lstat` to the walk function, which prints it and returns nil, so
`dirSize` returns the total 0 and a nil error. -/
theorem dirSize_missing_root :
    dirSize goneEnv "gone" =
      ⟨0, none, ["Error accessing file: lstat gone: no such file or directory\n"]⟩ := by
  decide

/-- C6: the code at a root with a subdirectory that cannot be read, a plain
file and a readable subdirectory.  A size line `0\tsecret\n` is written for the
unreadable subdirectory, after the diagnostic of the walk function; the exit
status is 0. -/
theorem main_unreadable_subdirectory :
    main deniedEnv "root" "B" =
      (["Error accessing file: open root/secret: permission denied\n",
        "0\tsecret\n", "2048\tok\n"], 0) := by
  decide

/-- C8: whenever listing the root returns an error, `main` writes the one line
`Error reading directory: <error>`, writes no size line and no other
diagnostic, and ends with exit status 1, whatever entries came with the error
and whatever the file system holds. -/
theorem main_root_listing_error (env : Env) (dir unit e : String)
    (h : (listDirectories env dir).2 = some e) :
    main env dir unit = (["Error reading directory: " ++ e ++ "\n"], 1) := by
  simp [main, h]

/-- Witness of C8: a listing that fails after a directory entry was read. -/
theorem main_root_listing_error_witness :
    (listDirectories brokenRootEnv "root").2 = some "readdirent root: input/output error" ∧
    main brokenRootEnv "root" "MB" =
      (["Error reading directory: " ++ "readdirent root: input/output error" ++ "\n"], 1) :=
  ⟨by decide, main_root_listing_error brokenRootEnv "root" "MB"
    "readdirent root: input/output error" (by decide)⟩

/-! ## The size accumulator -/

/-- The total `dirSize` returns is the wrapped sum of the reached sizes. -/
theorem dirSize_size_eq (env : Env) (path : String) :
    (dirSize env path).size = wrap64 (env.tree path).reachedSizes.sum := by
  rw [dirSize_eq, countedSizes_deliveries, foldl_addInt64_zero]

/-- C3, the claim as stated fails: a directory with two files of `2^62` bytes
is reachable without an access error and the sum of its file lengths is
`2^63`, but `dirSize` returns `-2^63`. -/
theorem dirSize_sum_counterexample :
    sparseTree.accessOK = true ∧
    (dirSize sparseEnv "big").err = none ∧
    sparseTree.nonDirSizes.sum = 9223372036854775808 ∧
    (dirSize sparseEnv "big").size = -9223372036854775808 ∧
    (dirSize sparseEnv "big").size ≠ (sparseEnv.tree "big").nonDirSizes.sum := by
  decide

/-- C3, amended: for every file tree in which every entry is reachable
without an access error, `dirSize` returns a nil error, prints nothing, and
returns the sum of the byte lengths of all non-directory entries at any depth
reduced into the `int64` range, hence that sum itself whenever it lies in the
`int64` range; the total is the same for any other such tree whose
non-directory lengths are a rearrangement of these. -/
theorem dirSize_accessOK (env : Env) (path : String)
    (h : (env.tree path).accessOK = true) :
    (dirSize env path).err = none ∧
    (dirSize env path).out = [] ∧
    (dirSize env path).size = wrap64 (env.tree path).nonDirSizes.sum ∧
    (-(2 ^ 63) ≤ (env.tree path).nonDirSizes.sum → (env.tree path).nonDirSizes.sum < 2 ^ 63 →
      (dirSize env path).size = (env.tree path).nonDirSizes.sum) ∧
    (∀ (env2 : Env) (path2 : String), (env2.tree path2).accessOK = true →
      List.Perm (env2.tree path2).nonDirSizes (env.tree path).nonDirSizes →
      (dirSize env2 path2).size = (dirSize env path).size) := by
  have hsize : ∀ (e : Env) (p : String), (e.tree p).accessOK = true →
      (dirSize e p).size = wrap64 (e.tree p).nonDirSizes.sum := by
    intro e p hp
    rw [dirSize_size_eq, reachedSizes_of_accessOK _ hp]
  refine ⟨dirSize_err_nil env path, ?_, hsize env path h, ?_, ?_⟩
  · rw [dirSize_eq]
    exact diagnostics_of_accessOK env.join path _ h
  · intro h1 h2
    rw [hsize env path h, wrap64_of_range h1 h2]
  · intro env2 path2 h2 hperm
    rw [hsize env path h, hsize env2 path2 h2, hperm.sum_eq]

/-- Witness of C3 amended: the directory of `TestDirSize`, 13312 bytes. -/
theorem dirSize_accessOK_witness :
    (testDirEnv.tree "testdir").accessOK = true ∧
    (dirSize testDirEnv "testdir").size = 13312 ∧
    (dirSize testDirEnv "testdir").err = none := by
  have h := dirSize_accessOK testDirEnv "testdir" (by decide)
  refine ⟨by decide, ?_, h.1⟩
  rw [h.2.2.2.1 (by decide) (by decide)]
  decide

/-- C4: access errors do not abort the walk of `dirSize`.  The walk function
receives every call of `deliveries` (each entry, also those after an entry
that arrived with an error); `dirSize` returns a nil error; the total is the
`int64` accumulation of the sizes of the entries that arrived without an error
and are not directories, entries with an error adding nothing; this is the
wrapped sum of the non-directory sizes of all entries the walk reaches; and one
diagnostic is printed for each entry that arrived with an error. -/
theorem dirSize_continues_after_access_errors (env : Env) (path : String) :
    Walk dirSizeFn env.join path (env.tree path) ⟨0, []⟩ =
      (runDeliveries dirSizeFn ⟨0, []⟩ (deliveries env.join path (env.tree path)), none) ∧
    (dirSize env path).err = none ∧
    (dirSize env path).size =
      (countedSizes (deliveries env.join path (env.tree path))).foldl addInt64 0 ∧
    (dirSize env path).size = wrap64 (env.tree path).reachedSizes.sum ∧
    (dirSize env path).out = diagnostics (deliveries env.join path (env.tree path)) ∧
    (∀ d ∈ deliveries env.join path (env.tree path), d.err ≠ none → d.counted = none) ∧
    (∀ d ∈ deliveries env.join path (env.tree path), d.err = none →
      ∀ i, d.info = some i → i.IsDir = false → d.counted = some i.Size) := by
  refine ⟨Walk_of_nil dirSizeFn dirSizeFn_nil _ _ _ _, dirSize_err_nil env path, ?_,
    dirSize_size_eq env path, ?_, ?_, ?_⟩
  · rw [dirSize_eq]
  · rw [dirSize_eq]
  · intro d _ hd
    cases he : d.err with
    | none => exact absurd he hd
    | some e => simp [Delivery.counted, he]
  · intro d _ hd i hi hdir
    simp [Delivery.counted, hd, hi, hdir]

/-- Witness of C4: with an entry that cannot be examined and a subdirectory
that cannot be read among readable files of 100, 20 and 3 bytes, `dirSize`
returns 123, a nil error and the two diagnostics. -/
theorem dirSize_continues_after_access_errors_witness :
    (dirSize flakyEnv "data").size = 123 ∧
    (dirSize flakyEnv "data").err = none ∧
    (dirSize flakyEnv "data").out =
      ["Error accessing file: lstat data/b: input/output error\n",
       "Error accessing file: open data/locked: permission denied\n"] := by
  have h := dirSize_continues_after_access_errors flakyEnv "data"
  refine ⟨?_, h.2.1, ?_⟩
  · rw [h.2.2.1]
    decide
  · rw [h.2.2.2.2.1]
    decide

mutual
theorem reachedSizes_subset_allSizes : (n : Node) → ∀ x ∈ n.reachedSizes, x ∈ n.allSizes
  | .missing _ _, x, hx => by simp [Node.reachedSizes] at hx
  | .file _ _ _, x, hx => by simpa [Node.reachedSizes, Node.allSizes] using hx
  | .dir _ _ readErr children, x, hx => by
      cases readErr with
      | some e => simp [Node.reachedSizes] at hx
      | none =>
          simp only [Node.reachedSizes, Option.isSome_none, Bool.false_eq_true, if_false] at hx
          simp only [Node.allSizes, List.mem_cons]
          exact Or.inr (reachedSizesOfNames_subset children x hx)
theorem reachedSizesOfNames_subset : (cs : List Node) →
    ∀ x ∈ reachedSizesOfNames cs, x ∈ allSizesOfNames cs
  | [], x, hx => by simp [reachedSizesOfNames] at hx
  | c :: rest, x, hx => by
      simp only [reachedSizesOfNames, List.mem_append] at hx
      simp only [allSizesOfNames, List.mem_append]
      rcases hx with hx | hx
      · exact Or.inl (reachedSizes_subset_allSizes c x hx)
      · exact Or.inr (reachedSizesOfNames_subset rest x hx)
end

mutual
theorem reachedSizes_setDirSize (z : Int) : (n : Node) →
    (n.setDirSize z).reachedSizes = n.reachedSizes
  | .missing _ _ => by simp [Node.setDirSize]
  | .file _ _ _ => by simp [Node.setDirSize]
  | .dir _ _ readErr children => by
      have ih := reachedSizesOfNames_setDirSize z children
      simp [Node.setDirSize, Node.reachedSizes, ih]
theorem reachedSizesOfNames_setDirSize (z : Int) : (cs : List Node) →
    reachedSizesOfNames (setDirSizeOfNames z cs) = reachedSizesOfNames cs
  | [] => by simp [setDirSizeOfNames]
  | c :: rest => by
      have h1 := reachedSizes_setDirSize z c
      have h2 := reachedSizesOfNames_setDirSize z rest
      simp [setDirSizeOfNames, reachedSizesOfNames, h1, h2]
end

/-- A leading part of a list of non-negative integers has a non-negative sum
that does not exceed the sum of the whole list. -/
theorem sum_of_isPrefix {l1 l2 : List Int} (hp : l1 <+: l2) (hnn : ∀ x ∈ l2, 0 ≤ x) :
    0 ≤ l1.sum ∧ l1.sum ≤ l2.sum := by
  obtain ⟨t, rfl⟩ := hp
  have h1 : 0 ≤ l1.sum := List.sum_nonneg (fun x hx => hnn x (List.mem_append_left _ hx))
  have h2 : 0 ≤ t.sum := List.sum_nonneg (fun x hx => hnn x (List.mem_append_right _ hx))
  rw [List.sum_append]
  exact ⟨h1, by omega⟩

/-- C9, the claim as stated fails: every entry of the tree has a non-negative
byte length, and `dirSize` returns a negative total (the running total is
negative after the last step of the walk). -/
theorem dirSize_nonneg_counterexample :
    (∀ x ∈ (sparseEnv2.tree "vault").allSizes, 0 ≤ x) ∧
    (dirSize sparseEnv2 "vault").size = -9223372036854775803 ∧
    (dirSize sparseEnv2 "vault").size < 0 ∧
    (runDeliveries dirSizeFn ⟨0, []⟩
      ((deliveries sparseEnv2.join "vault" (sparseEnv2.tree "vault")).take 4)).size < 0 := by
  decide

/-- C9, amended: for every file tree whose entries all have non-negative byte
lengths and in which the byte lengths of the non-directory entries the walk
reaches sum to less than `2^63`, the running total of `dirSize` is
non-negative after every call of the walk function (after the first `k` calls,
for every `k`), and the value `dirSize` returns is non-negative and equal to
that sum. -/
theorem dirSize_nonneg (env : Env) (path : String)
    (hnn : ∀ x ∈ (env.tree path).allSizes, 0 ≤ x)
    (hsum : (env.tree path).reachedSizes.sum < 2 ^ 63) :
    (Walk dirSizeFn env.join path (env.tree path) ⟨0, []⟩).1 =
      runDeliveries dirSizeFn ⟨0, []⟩ (deliveries env.join path (env.tree path)) ∧
    (∀ k : Nat, 0 ≤ (runDeliveries dirSizeFn ⟨0, []⟩
      ((deliveries env.join path (env.tree path)).take k)).size) ∧
    0 ≤ (dirSize env path).size ∧
    (dirSize env path).size = (env.tree path).reachedSizes.sum := by
  have hr : ∀ x ∈ (env.tree path).reachedSizes, 0 ≤ x :=
    fun x hx => hnn x (reachedSizes_subset_allSizes _ x hx)
  have htot : 0 ≤ (env.tree path).reachedSizes.sum := List.sum_nonneg hr
  have hsz : (dirSize env path).size = (env.tree path).reachedSizes.sum := by
    rw [dirSize_size_eq, wrap64_of_range (by omega) hsum]
  refine ⟨by rw [Walk_of_nil dirSizeFn dirSizeFn_nil], ?_, by omega, hsz⟩
  intro k
  rw [runDeliveries_dirSizeFn, foldl_addInt64_zero]
  have hp : countedSizes ((deliveries env.join path (env.tree path)).take k) <+:
      (env.tree path).reachedSizes := by
    rw [← countedSizes_deliveries env.join path]
    exact (List.take_prefix k _).filterMap _
  have hb := sum_of_isPrefix hp hr
  show 0 ≤ wrap64 _
  rw [wrap64_of_range (by omega) (by omega)]
  exact hb.1

/-- Witness of C9 amended: the tree with an unreadable entry and an unreadable
subdirectory, whose reached files hold 123 bytes. -/
theorem dirSize_nonneg_witness :
    (∀ x ∈ (flakyEnv.tree "data").allSizes, 0 ≤ x) ∧
    (flakyEnv.tree "data").reachedSizes.sum < 2 ^ 63 ∧
    0 ≤ (dirSize flakyEnv "data").size ∧
    (dirSize flakyEnv "data").size = 123 := by
  have h := dirSize_nonneg flakyEnv "data" (by decide) (by decide)
  refine ⟨by decide, by decide, h.2.2.1, ?_⟩
  rw [h.2.2.2]
  decide

/-- C10, the claim as stated fails: a directory holding a symbolic link of 11
bytes, a named pipe and no regular file has the total 11, not 0: the symbolic
link contributes its size. -/
theorem dirSize_regular_only_counterexample :
    linkTree.regularSizes = [] ∧
    (dirSize linkEnv "d").size = 11 ∧
    (dirSize linkEnv "d").size ≠ wrap64 (linkEnv.tree "d").regularSizes.sum := by
  decide

/-- C10, amended: the total of `dirSize` reflects the byte lengths of the
non-directory entries the walk reaches, whatever their file type: it is their
sum, reduced into the `int64` range; a root that is not a directory
contributes its size whether it is a regular file, a symbolic link, a device,
a socket or a named pipe; and the byte lengths of directories, the root
included, have no influence on the total. -/
theorem dirSize_counts_every_non_directory (env : Env) (path : String) :
    (dirSize env path).size = wrap64 (env.tree path).reachedSizes.sum ∧
    (∀ (name : String) (typ : NonDirType) (size : Int),
      env.tree path = .file name typ size → (dirSize env path).size = wrap64 size) ∧
    (∀ (z : Int) (env2 : Env), env2.tree path = (env.tree path).setDirSize z →
      (dirSize env2 path).size = (dirSize env path).size) := by
  refine ⟨dirSize_size_eq env path, ?_, ?_⟩
  · intro name typ size h
    rw [dirSize_size_eq, h]
    simp [Node.reachedSizes]
  · intro z env2 h
    rw [dirSize_size_eq, dirSize_size_eq, h, reachedSizes_setDirSize]

/-- Witness of C10 amended: the directory holding a symbolic link of 11 bytes
and a named pipe has the total 11, also when its own length is set to 0. -/
theorem dirSize_counts_every_non_directory_witness :
    (dirSize linkEnv "d").size = 11 ∧
    (dirSize ⟨joinSlash, fun _ => ([], none), fun _ => linkTree.setDirSize 0⟩ "d").size =
      (dirSize linkEnv "d").size := by
  have h := dirSize_counts_every_non_directory linkEnv "d"
  refine ⟨?_, h.2.2 0 _ rfl⟩
  rw [h.1]
  decide

/-! ## The output of a run -/

theorem dirSize_out_of_accessOK (env : Env) (path : String)
    (h : (env.tree path).accessOK = true) : (dirSize env path).out = [] := by
  rw [dirSize_eq]
  exact diagnostics_of_accessOK env.join path _ h

theorem printDirectorySize_valid (name : String) (size : Int) (unit : String)
    (hunit : unit = "B" ∨ unit = "KB" ∨ unit = "MB") :
    printDirectorySize name size unit =
      [toString (if unit = "B" then size else if unit = "KB" then Int.tdiv size 1024
        else Int.tdiv size 1048576) ++ "\t" ++ name ++ "\n"] := by
  rcases hunit with h | h | h <;> subst h <;> simp [printDirectorySize, bytesInMB]

theorem mainLoop_accessOK (env : Env) (dir unit : String)
    (hunit : unit = "B" ∨ unit = "KB" ∨ unit = "MB") (entries : List DirEntry)
    (hok : ∀ e ∈ entries, e.IsDir = true → (env.tree (env.join dir e.Name)).accessOK = true) :
    mainLoop env dir unit entries =
      (entries.filter (fun e => e.IsDir)).map (fun e =>
        toString (if unit = "B" then (dirSize env (env.join dir e.Name)).size
          else if unit = "KB" then Int.tdiv (dirSize env (env.join dir e.Name)).size 1024
          else Int.tdiv (dirSize env (env.join dir e.Name)).size 1048576)
          ++ "\t" ++ e.Name ++ "\n") := by
  induction entries with
  | nil => simp [mainLoop]
  | cons e rest ih =>
      have ih2 := ih (fun x hx => hok x (List.mem_cons_of_mem _ hx))
      by_cases hd : e.IsDir = true
      · have hacc := hok e (List.mem_cons_self _ _) hd
        have herr := dirSize_err_nil env (env.join dir e.Name)
        have hout := dirSize_out_of_accessOK env _ hacc
        have hline := printDirectorySize_valid e.Name (dirSize env (env.join dir e.Name)).size
          unit hunit
        simp only [mainLoop, hd, if_true, herr, hout, hline, ih2, List.nil_append,
          List.filter_cons_of_pos, List.map_cons, List.singleton_append]
      · simp only [mainLoop, hd, Bool.false_eq_true, if_false, ih2]
        rw [List.filter_cons_of_neg (by simpa using hd)]

/-- C7: when listing the root succeeds, the unit is "B", "KB" or "MB" and the
tree of every listed directory is reachable without an access error, `main`
writes exactly one line `<integer>\t<name>\n` for each entry of the listing
that is a directory, in the order of the listing, where the integer is the
total of `dirSize` at `join(root, name)` converted to the unit and the name is
the bare entry name; entries that are not directories write nothing; the exit
status is 0. -/
theorem main_output (env : Env) (dir unit : String)
    (hlist : (listDirectories env dir).2 = none)
    (hunit : unit = "B" ∨ unit = "KB" ∨ unit = "MB")
    (hok : ∀ e ∈ (listDirectories env dir).1, e.IsDir = true →
      (env.tree (env.join dir e.Name)).accessOK = true) :
    main env dir unit =
      (((listDirectories env dir).1.filter (fun e => e.IsDir)).map (fun e =>
        toString (if unit = "B" then (dirSize env (env.join dir e.Name)).size
          else if unit = "KB" then Int.tdiv (dirSize env (env.join dir e.Name)).size 1024
          else Int.tdiv (dirSize env (env.join dir e.Name)).size 1048576)
          ++ "\t" ++ e.Name ++ "\n"), 0) := by
  simp only [main, hlist]
  rw [mainLoop_accessOK env dir unit hunit _ hok]

/-- Witness of C7: a root with the directory `sub1` (3072 bytes), a plain file
and the empty directory `sub2`, in kilobytes. -/
theorem main_output_witness :
    (listDirectories plainEnv "root").2 = none ∧
    ("KB" = "B" ∨ "KB" = "KB" ∨ "KB" = "MB") ∧
    (∀ e ∈ (listDirectories plainEnv "root").1, e.IsDir = true →
      (plainEnv.tree (plainEnv.join "root" e.Name)).accessOK = true) ∧
    main plainEnv "root" "KB" = (["3\tsub1\n", "0\tsub2\n"], 0) := by
  have h := main_output plainEnv "root" "KB" (by decide) (by decide) (by decide)
  refine ⟨by decide, by decide, by decide, ?_⟩
  rw [h]
  decide

end Wind
